import Mathlib

/-!
# Verification of the Vinted Market Scout scrape-and-price-analysis pipeline

Shallow embedding of the core pipeline of `app.py`: the paginated fetcher
and HTML extractor (`search_vinted`), the price aggregator
(`analyze_prices`), the resale recommender (`resale_estimate_and_label`)
and the saturation classifier (`market_saturation_label`), together with
the filter-then-aggregate analysis handler of the "Analyse Vinted" page.

Python strings are embedded as `List Char` (so the character-wise
`replace`/`strip`/filter steps of price normalization are explicit list
operations), Python numbers as `ℚ`, and fallible operations as `Option`.
The network and the HTML parser are external collaborators: a run is
parameterized by a `fetch` function returning, per page number, either
`none` (connection error, timeout, or non-200 status) or the parsed page
(the listing-node candidates each CSS selector would produce).
-/

namespace Scout

/-- Python `str` embedded as a list of characters. -/
abbrev Str := List Char

/-- Python `str.strip()`: drop whitespace from both ends. -/
def trimList (s : Str) : Str :=
  ((s.dropWhile Char.isWhitespace).reverse.dropWhile Char.isWhitespace).reverse

/-- Value of a digit string, `foldl`-style (`int` of the digit sequence). -/
def digitsVal (s : Str) : ℕ :=
  s.foldl (fun acc c => 10 * acc + (c.toNat - 48)) 0

/-- Python `float(s)` restricted to the strings `search_vinted` feeds it:
`cleaned` consists only of digit and `'.'` characters.  Such a string
parses iff it contains at most one point and at least one digit
(`"1"`, `"1."`, `".5"` succeed; `""`, `"."`, `"1.2.3"` raise `ValueError`,
which the source turns into `None`). -/
def parseCleaned (s : Str) : Option ℚ :=
  if s.count '.' = 0 then
    if s = [] then none else some (digitsVal s : ℚ)
  else if s.count '.' = 1 then
    let a := s.takeWhile (fun c => c ≠ '.')
    let b := (s.dropWhile (fun c => c ≠ '.')).tail
    if a = [] ∧ b = [] then none
    else some ((digitsVal a : ℚ) + (digitsVal b : ℚ) / 10 ^ b.length)
  else none

/-- The price-text normalization of `search_vinted` (lines 152–157):
`get_text().replace("€","").replace("€","").replace(",",".").strip()`,
then keep only digit/point characters, then `float(cleaned) if cleaned
else None` with exceptions mapped to `None`.  (`"€"` and `"€"` are the
same character, so the second `replace` is a repeat of the first.) -/
def parsePriceText (s : Str) : Option ℚ :=
  let price_text := trimList ((s.filter (fun c => c ≠ '€')).map
    (fun c => if c = ',' then '.' else c))
  let cleaned := price_text.filter (fun c => c.isDigit || c = '.')
  if cleaned = [] then none else parseCleaned cleaned

/-- One candidate listing container node, as seen through the selectors the
extractor queries: the text of the first match of each title sub-selector
(`.feed-grid__item-title`, `h3`, `.title`), of each price sub-selector
(`.feed-grid__item-price`, `.price`, `span[data-testid='price']`), and the
`href` of the first anchor (`it.find("a", href=True)`). -/
structure Node where
  titleFeed : Option Str
  titleH3 : Option Str
  titleClass : Option Str
  priceFeed : Option Str
  priceClass : Option Str
  priceSpan : Option Str
  linkHref : Option Str
deriving DecidableEq

/-- One fetched page, as seen through the three container selectors
`.feed-grid__item`, `.catalog-item`, `.item`. -/
structure Page where
  feedGridItems : List Node
  catalogItems : List Node
  plainItems : List Node
deriving DecidableEq

/-- `soup.select(".feed-grid__item") or soup.select(".catalog-item") or
soup.select(".item") or []`: first non-empty selector result wins. -/
def selectItems (pg : Page) : List Node :=
  if pg.feedGridItems ≠ [] then pg.feedGridItems
  else if pg.catalogItems ≠ [] then pg.catalogItems
  else pg.plainItems

/-- An extracted listing record `{"title": ..., "price": ..., "link": ...}`. -/
structure Listing where
  title : Str
  price : ℚ
  link : Str
deriving DecidableEq

/-- Model of `urllib.parse.urljoin("https://www.vinted.fr", href)` for the
hrefs that occur on the site: absolute URLs are kept, others are resolved
against the base origin. -/
def urljoinVinted (href : Str) : Str :=
  if "https://".toList.isPrefixOf href ∨ "http://".toList.isPrefixOf href
  then href
  else "https://www.vinted.fr".toList ++ href

/-- The per-node extraction body of `search_vinted` (lines 146–161):
title/price tags are the first match of an `or`-chain of sub-selectors
(a `select_one` miss is `None` and falsy), a node missing title, price or
link is skipped, and a price that fails to normalize drops the node. -/
def extractNode (it : Node) : Option Listing :=
  let title_tag := it.titleFeed <|> it.titleH3 <|> it.titleClass
  let price_tag := it.priceFeed <|> it.priceClass <|> it.priceSpan
  let link_tag := it.linkHref
  match title_tag, price_tag, link_tag with
  | some t, some p, some href =>
    match parsePriceText p with
    | none => none
    | some price => some ⟨trimList t, price, urljoinVinted href⟩
  | _, _, _ => none

/-- All listings one page contributes, in document order. -/
def extractPage (pg : Page) : List Listing :=
  (selectItems pg).filterMap extractNode

/-- `range(1, max_pages + 1)` over a Python `int`. -/
def pagesRange (maxPages : ℤ) : List ℤ :=
  (List.range (max 0 maxPages).toNat).map (fun i => 1 + (i : ℤ))

/-- `search_vinted(query, max_pages, pause)` for a fixed query, with the
network abstracted as `fetch : page number → Option Page` (`none` models a
raised `requests` exception or a non-200 status — both `continue`).  Pages
are visited in order, a failed page contributes nothing, and each page's
extracted listings are appended to the accumulated results. -/
def search_vinted (fetch : ℤ → Option Page) (maxPages : ℤ) : List Listing :=
  (pagesRange maxPages).foldl
    (fun results page =>
      match fetch page with
      | none => results
      | some pg => results ++ extractPage pg)
    []

/-- One row of the record list `analyze_prices` receives: only the
`"price"` entry matters; `none` models a missing or non-numeric value
(the `isinstance(it.get("price"), (int, float))` test failing). -/
structure PriceRecord where
  price : Option ℚ
deriving DecidableEq

/-- The statistics dict `{"avg", "min", "max", "count"}`. -/
structure Stats where
  avg : ℚ
  min : ℚ
  max : ℚ
  count : ℕ
deriving DecidableEq

/-- `analyze_prices(items)` (lines 165–170): keep the numeric prices; if
none remain return `None`, else the mean, `min`, `max` and `len`. -/
def analyze_prices (items : List PriceRecord) : Option Stats :=
  let prices := items.filterMap PriceRecord.price
  match prices with
  | [] => none
  | p :: ps =>
    some { avg := (p :: ps).sum / (p :: ps).length
           min := ps.foldl Min.min p
           max := ps.foldl Max.max p
           count := (p :: ps).length }

/-- Round an exact rational to the nearest integer, ties to even: the
behavior of Python's `round` on an exactly representable value. -/
def roundHalfEven (q : ℚ) : ℤ :=
  let f := ⌊q⌋
  if q - f < 1 / 2 then f
  else if 1 / 2 < q - f then f + 1
  else if 2 ∣ f then f else f + 1

/-- `round(x, 2)`. -/
def round2 (q : ℚ) : ℚ := (roundHalfEven (q * 100) : ℚ) / 100

/-- `resale_estimate_and_label(price, avg)` (lines 172–196): guard
`avg <= 0`, then classify `ratio = price / avg` into four bands with
inclusive upper boundaries, first match winning. -/
def resale_estimate_and_label (price avg : ℚ) : String × ℕ × (ℚ × ℚ) × String :=
  if avg ≤ 0 then ("Inconnu", 0, (0, 0), "Inconnu")
  else
    let ratio := price / avg
    if ratio ≤ 0.6 then
      ("🔥 Revente rapide", 90, (round2 (avg * 0.9), round2 (avg * 1.1)), "1-7 jours")
    else if ratio ≤ 1 then
      ("✅ Bonne revente", 75, (round2 (avg * 0.95), round2 (avg * 1.25)), "7-21 jours")
    else if ratio ≤ 1.4 then
      ("🕐 Vente lente", 50, (round2 (avg * 0.9), round2 (avg * 1.3)), "2-6 semaines")
    else
      ("🐢 Vente très lente", 25, (round2 (avg * 0.8), round2 (avg * 1.1)), "1-3 mois")

/-- `market_saturation_label(count)` (lines 198–204). -/
def market_saturation_label (count : ℕ) : String :=
  if count < 10 then "Peu saturé"
  else if count < 30 then "Moyennement saturé"
  else "Très saturé"

/-- Substring test: does `needle` occur contiguously in `hay`? -/
def containsSub : Str → Str → Bool
  | [], needle => decide (needle = [])
  | c :: t, needle => needle.isPrefixOf (c :: t) || containsSub t needle

/-- `df['title'].str.contains(brand, case=False)`: case-insensitive
substring test (the brand names offered contain no regex metacharacters,
so pandas' regex search coincides with a plain substring search). -/
def titleContainsCI (hay needle : Str) : Bool :=
  containsSub (hay.map Char.toLower) (needle.map Char.toLower)

/-- The `"All"` sentinel of the brand selector. -/
def brandAll : Str := "All".toList

/-- The filtering step of the "Analyse Vinted" handler (lines 289–293):
brand filter (skipped for `"All"`) and then the inclusive price-range
filter. -/
def filter_listings (brand : Str) (pmin pmax : ℚ) (items : List Listing) :
    List Listing :=
  let afterBrand :=
    if brand = brandAll then items
    else items.filter (fun it => titleContainsCI it.title brand)
  afterBrand.filter (fun it => decide (pmin ≤ it.price) && decide (it.price ≤ pmax))

/-- The "Analyse Vinted" handler (lines 284–298): scrape, filter (brand
then price), then compute the market statistics on the filtered set. -/
def analyse_vinted_run (fetch : ℤ → Option Page) (maxPages : ℤ)
    (brand : Str) (pmin pmax : ℚ) : List Listing × Option Stats :=
  let items := search_vinted fetch maxPages
  let df := filter_listings brand pmin pmax items
  (df, analyze_prices (df.map (fun it => ⟨some it.price⟩)))

/-- The per-row annotation step of the handler (lines 301–305), given the
reference average of the computed statistics. -/
def annotate (df : List Listing) (avg : ℚ) :
    List (Listing × String × ℕ × (ℚ × ℚ) × String) :=
  df.map (fun it => (it, resale_estimate_and_label it.price avg))

/-! ## Helper lemmas -/

lemma ne_of_isDigit_of_not {c d : Char} (h : c.isDigit = true)
    (hd : d.isDigit = false) : c ≠ d := by
  intro he
  rw [he, hd] at h
  exact Bool.false_ne_true h

lemma isWhitespace_eq_false_of_isDigit {c : Char} (h : c.isDigit = true) :
    c.isWhitespace = false := by
  cases hw : c.isWhitespace
  · rfl
  · exfalso
    simp only [Char.isWhitespace, Bool.or_eq_true, decide_eq_true_eq] at hw
    rcases hw with ((rfl | rfl) | rfl) | rfl <;> exact absurd h (by decide)

lemma dropWhile_eq_self_of_head {p : Char → Bool} {x : Char} {xs : Str}
    (h : p x = false) : (x :: xs).dropWhile p = x :: xs := by
  rw [List.dropWhile_cons, h]
  simp

lemma dropWhile_eq_self_of_forall {p : Char → Bool} {l : Str}
    (h : ∀ c ∈ l, p c = false) : l.dropWhile p = l := by
  cases l with
  | nil => rfl
  | cons x xs => exact dropWhile_eq_self_of_head (h x (List.mem_cons_self x xs))

lemma trimList_append_space {s : Str} (hne : s ≠ [])
    (h : ∀ c ∈ s, c.isWhitespace = false) : trimList (s ++ [' ']) = s := by
  obtain ⟨x, xs, rfl⟩ := List.exists_cons_of_ne_nil hne
  unfold trimList
  rw [show (x :: xs) ++ [' '] = x :: (xs ++ [' ']) from rfl]
  rw [dropWhile_eq_self_of_head (h x (List.mem_cons_self x xs))]
  rw [show x :: (xs ++ [' ']) = (x :: xs) ++ [' '] from rfl]
  rw [List.reverse_append]
  rw [show ([' '] : Str).reverse = [' '] from rfl]
  rw [show ([' '] : Str) ++ (x :: xs).reverse = ' ' :: (x :: xs).reverse from rfl]
  rw [List.dropWhile_cons]
  simp only [show (' ').isWhitespace = true from rfl, if_true]
  rw [dropWhile_eq_self_of_forall (fun c hc => h c (List.mem_reverse.mp hc))]
  exact List.reverse_reverse _

lemma map_eq_self_of_forall {f : Char → Char} {l : Str}
    (h : ∀ c ∈ l, f c = c) : l.map f = l := by
  induction l with
  | nil => rfl
  | cons x xs ih =>
    simp only [List.map_cons, h x (List.mem_cons_self x xs)]
    rw [ih (fun c hc => h c (List.mem_cons_of_mem x hc))]

lemma takeWhile_append_stop {p : Char → Bool} {a : Str} {x : Char} (b : Str)
    (ha : ∀ c ∈ a, p c = true) (hx : p x = false) :
    (a ++ x :: b).takeWhile p = a := by
  induction a with
  | nil => simp [List.takeWhile_cons, hx]
  | cons y ys ih =>
    simp only [List.cons_append, List.takeWhile_cons,
      ha y (List.mem_cons_self y ys), if_true]
    rw [ih (fun c hc => ha c (List.mem_cons_of_mem y hc))]

lemma dropWhile_append_stop {p : Char → Bool} {a : Str} {x : Char} (b : Str)
    (ha : ∀ c ∈ a, p c = true) (hx : p x = false) :
    (a ++ x :: b).dropWhile p = x :: b := by
  induction a with
  | nil => simp [List.dropWhile_cons, hx]
  | cons y ys ih =>
    simp only [List.cons_append, List.dropWhile_cons,
      ha y (List.mem_cons_self y ys), if_true]
    exact ih (fun c hc => ha c (List.mem_cons_of_mem y hc))

lemma roundHalfEven_bounds (q : ℚ) :
    ⌊q⌋ ≤ roundHalfEven q ∧ roundHalfEven q ≤ ⌊q⌋ + 1 := by
  simp only [roundHalfEven]
  split_ifs <;> omega

lemma roundHalfEven_mono {a b : ℚ} (h : a ≤ b) :
    roundHalfEven a ≤ roundHalfEven b := by
  have hf : ⌊a⌋ ≤ ⌊b⌋ := Int.floor_le_floor h
  rcases eq_or_lt_of_le hf with heq | hlt
  · have hr : a - (⌊a⌋ : ℚ) ≤ b - ((⌊b⌋ : ℤ) : ℚ) := by
      rw [← heq]; linarith
    simp only [roundHalfEven]
    rw [← heq] at hr ⊢
    split_ifs <;> first | omega | linarith
  · have h1 := (roundHalfEven_bounds a).2
    have h2 := (roundHalfEven_bounds b).1
    omega

lemma round2_mono {a b : ℚ} (h : a ≤ b) : round2 a ≤ round2 b := by
  unfold round2
  have := roundHalfEven_mono (mul_le_mul_of_nonneg_right h (by norm_num : (0:ℚ) ≤ 100))
  have hc : ((roundHalfEven (a * 100) : ℤ) : ℚ) ≤ ((roundHalfEven (b * 100) : ℤ) : ℚ) :=
    Int.cast_le.mpr this
  linarith

lemma digitsVal_cast_nonneg (s : Str) : (0 : ℚ) ≤ (digitsVal s : ℚ) := by
  exact_mod_cast Nat.zero_le _

lemma parseCleaned_nonneg {s : Str} {q : ℚ} (h : parseCleaned s = some q) :
    0 ≤ q := by
  simp only [parseCleaned] at h
  split_ifs at h <;>
    first
      | exact Option.noConfusion h
      | (injection h with h; rw [← h]; positivity)

lemma parsePriceText_nonneg {s : Str} {q : ℚ} (h : parsePriceText s = some q) :
    0 ≤ q := by
  simp only [parsePriceText] at h
  split_ifs at h
  exact parseCleaned_nonneg h

lemma extractNode_price_nonneg {it : Node} {l : Listing}
    (h : extractNode it = some l) : 0 ≤ l.price := by
  have h2 := h
  simp only [extractNode] at h2
  cases ht : (it.titleFeed <|> it.titleH3 <|> it.titleClass) with
  | none => rw [ht] at h2; exact Option.noConfusion h2
  | some t =>
    rw [ht] at h2
    cases hp : (it.priceFeed <|> it.priceClass <|> it.priceSpan) with
    | none => rw [hp] at h2; exact Option.noConfusion h2
    | some p =>
      rw [hp] at h2
      cases hl : it.linkHref with
      | none => rw [hl] at h2; exact Option.noConfusion h2
      | some href =>
        rw [hl] at h2
        dsimp only at h2
        cases hq : parsePriceText p with
        | none => rw [hq] at h2; exact Option.noConfusion h2
        | some q =>
          rw [hq] at h2
          injection h2 with h2
          rw [← h2]
          exact parsePriceText_nonneg hq

lemma extractPage_price_nonneg {pg : Page} {l : Listing}
    (h : l ∈ extractPage pg) : 0 ≤ l.price := by
  unfold extractPage at h
  obtain ⟨it, _, hit⟩ := List.mem_filterMap.mp h
  exact extractNode_price_nonneg hit

lemma search_vinted_foldl (fetch : ℤ → Option Page) (l : List ℤ)
    (init : List Listing) :
    l.foldl
      (fun results page =>
        match fetch page with
        | none => results
        | some pg => results ++ extractPage pg)
      init =
    init ++ (l.map (fun page =>
      match fetch page with
      | none => []
      | some pg => extractPage pg)).flatten := by
  induction l generalizing init with
  | nil => simp
  | cons x xs ih =>
    rw [List.foldl_cons, List.map_cons, List.flatten_cons, ih]
    cases fetch x <;> simp

lemma search_vinted_eq_flatten (fetch : ℤ → Option Page) (maxPages : ℤ) :
    search_vinted fetch maxPages =
      ((pagesRange maxPages).map (fun page =>
        match fetch page with
        | none => []
        | some pg => extractPage pg)).flatten := by
  unfold search_vinted
  rw [search_vinted_foldl]
  rfl

lemma search_vinted_price_nonneg {fetch : ℤ → Option Page} {maxPages : ℤ}
    {l : Listing} (h : l ∈ search_vinted fetch maxPages) : 0 ≤ l.price := by
  rw [search_vinted_eq_flatten] at h
  obtain ⟨sub, hsub, hl⟩ := List.mem_flatten.mp h
  obtain ⟨page, _, hpage⟩ := List.mem_map.mp hsub
  rcases hf : fetch page with _ | pg <;> rw [hf] at hpage
  · rw [← hpage] at hl; cases hl
  · rw [← hpage] at hl
    exact extractPage_price_nonneg hl

lemma foldl_min_mem (p : ℚ) (ps : List ℚ) : ps.foldl Min.min p ∈ p :: ps := by
  induction ps generalizing p with
  | nil => exact List.mem_singleton.mpr rfl
  | cons q qs ih =>
    rw [List.foldl_cons]
    rcases List.mem_cons.mp (ih (Min.min p q)) with h | h
    · rcases min_choice p q with hm | hm <;> rw [h, hm]
      · exact List.mem_cons_self _ _
      · exact List.mem_cons_of_mem _ (List.mem_cons_self _ _)
    · exact List.mem_cons_of_mem _ (List.mem_cons_of_mem _ h)

lemma foldl_min_le (p : ℚ) (ps : List ℚ) :
    ∀ x ∈ p :: ps, ps.foldl Min.min p ≤ x := by
  induction ps generalizing p with
  | nil =>
    intro x hx
    rcases List.mem_cons.mp hx with rfl | h
    · exact le_refl x
    · cases h
  | cons q qs ih =>
    intro x hx
    rw [List.foldl_cons]
    rcases List.mem_cons.mp hx with rfl | h
    · exact le_trans (ih (Min.min x q) (Min.min x q)
        (List.mem_cons_self _ _)) (min_le_left x q)
    · rcases List.mem_cons.mp h with rfl | h2
      · exact le_trans (ih (Min.min p x) (Min.min p x)
          (List.mem_cons_self _ _)) (min_le_right p x)
      · exact ih (Min.min p q) x (List.mem_cons_of_mem _ h2)

lemma foldl_max_mem (p : ℚ) (ps : List ℚ) : ps.foldl Max.max p ∈ p :: ps := by
  induction ps generalizing p with
  | nil => exact List.mem_singleton.mpr rfl
  | cons q qs ih =>
    rw [List.foldl_cons]
    rcases List.mem_cons.mp (ih (Max.max p q)) with h | h
    · rcases max_choice p q with hm | hm <;> rw [h, hm]
      · exact List.mem_cons_self _ _
      · exact List.mem_cons_of_mem _ (List.mem_cons_self _ _)
    · exact List.mem_cons_of_mem _ (List.mem_cons_of_mem _ h)

lemma foldl_max_ge (p : ℚ) (ps : List ℚ) :
    ∀ x ∈ p :: ps, x ≤ ps.foldl Max.max p := by
  induction ps generalizing p with
  | nil =>
    intro x hx
    rcases List.mem_cons.mp hx with rfl | h
    · exact le_refl x
    · cases h
  | cons q qs ih =>
    intro x hx
    rw [List.foldl_cons]
    rcases List.mem_cons.mp hx with rfl | h
    · exact le_trans (le_max_left x q)
        (ih (Max.max x q) (Max.max x q) (List.mem_cons_self _ _))
    · rcases List.mem_cons.mp h with rfl | h2
      · exact le_trans (le_max_right p x)
          (ih (Max.max p x) (Max.max p x) (List.mem_cons_self _ _))
      · exact ih (Max.max p q) x (List.mem_cons_of_mem _ h2)

/-! ## Concrete scenario data -/

/-- A mocked listing node whose price text parses to exactly `0`. -/
def zeroNode : Node :=
  { titleFeed := some "Article gratuit".toList
    titleH3 := none
    titleClass := none
    priceFeed := some "0 €".toList
    priceClass := none
    priceSpan := none
    linkHref := some "/items/1".toList }

/-- A one-listing mocked page holding `zeroNode`. -/
def zeroPage : Page := { feedGridItems := [zeroNode], catalogItems := [], plainItems := [] }

/-- A network where only page 1 succeeds, serving `zeroPage`. -/
def zeroFetch : ℤ → Option Page :=
  fun page => if page = 1 then some zeroPage else none

/-- A mocked listing node with the given title, price text and href. -/
def mkNode (t p href : String) : Node :=
  { titleFeed := some t.toList
    titleH3 := none
    titleClass := none
    priceFeed := some p.toList
    priceClass := none
    priceSpan := none
    linkHref := some href.toList }

/-- The mocked single page of the end-to-end scenario: three listings
priced 10, 20 and 30 euros. -/
def scenarioPage : Page :=
  { feedGridItems :=
      [mkNode "Casquette A" "10,00 €" "/items/10"
      , mkNode "Casquette B" "20,00 €" "/items/20"
      , mkNode "Casquette C" "30,00 €" "/items/30"]
    catalogItems := []
    plainItems := [] }

/-- A network serving `scenarioPage` on page 1 and failing elsewhere. -/
def scenarioFetch : ℤ → Option Page :=
  fun page => if page = 1 then some scenarioPage else none

/-- A record list with one non-numeric price and the numeric prices 4, 2. -/
def c4Items : List PriceRecord := [⟨none⟩, ⟨some 4⟩, ⟨some 2⟩]

/-! ## Claims -/

/-- **C1.** For every price `P` and reference average `A > 0`,
`resale_estimate_and_label` classifies `ratio = P / A` into exactly one of
four bands with inclusive upper boundaries checked in ascending order:
`ratio ≤ 0.6` gives the fast band (score 90, range
`[round2 (0.9·A), round2 (1.1·A)]`, "1-7 jours"); `0.6 < ratio ≤ 1` the
good band (75, `[round2 (0.95·A), round2 (1.25·A)]`, "7-21 jours");
`1 < ratio ≤ 1.4` the slow band (50, `[round2 (0.9·A), round2 (1.3·A)]`,
"2-6 semaines"); `ratio > 1.4` the very-slow band (25,
`[round2 (0.8·A), round2 (1.1·A)]`, "1-3 mois").  The four conditions are
exhaustive and pairwise exclusive, boundary ratios falling in the lower
band. -/
theorem resale_bands_spec (P A : ℚ) (hA : 0 < A) :
    (P / A ≤ 0.6 → resale_estimate_and_label P A =
      ("🔥 Revente rapide", 90, (round2 (A * 0.9), round2 (A * 1.1)), "1-7 jours")) ∧
    (0.6 < P / A → P / A ≤ 1 → resale_estimate_and_label P A =
      ("✅ Bonne revente", 75, (round2 (A * 0.95), round2 (A * 1.25)), "7-21 jours")) ∧
    (1 < P / A → P / A ≤ 1.4 → resale_estimate_and_label P A =
      ("🕐 Vente lente", 50, (round2 (A * 0.9), round2 (A * 1.3)), "2-6 semaines")) ∧
    (1.4 < P / A → resale_estimate_and_label P A =
      ("🐢 Vente très lente", 25, (round2 (A * 0.8), round2 (A * 1.1)), "1-3 mois")) ∧
    (P / A ≤ 0.6 ∨ (0.6 < P / A ∧ P / A ≤ 1) ∨ (1 < P / A ∧ P / A ≤ 1.4) ∨ 1.4 < P / A) ∧
    ¬(P / A ≤ 0.6 ∧ 0.6 < P / A) ∧ ¬(P / A ≤ 1 ∧ 1 < P / A) ∧
    ¬(P / A ≤ 1.4 ∧ 1.4 < P / A) := by
  have hA' : ¬ A ≤ 0 := not_le.mpr hA
  refine ⟨?_, ?_, ?_, ?_, ?_, ?_, ?_, ?_⟩
  · intro h1
    simp only [resale_estimate_and_label]
    rw [if_neg hA', if_pos h1]
  · intro h1 h2
    simp only [resale_estimate_and_label]
    rw [if_neg hA', if_neg (not_le.mpr h1), if_pos h2]
  · intro h1 h2
    simp only [resale_estimate_and_label]
    rw [if_neg hA', if_neg (not_le.mpr (lt_trans (by norm_num) h1)),
      if_neg (not_le.mpr h1), if_pos h2]
  · intro h1
    simp only [resale_estimate_and_label]
    rw [if_neg hA', if_neg (not_le.mpr (lt_trans (by norm_num) h1)),
      if_neg (not_le.mpr (lt_trans (by norm_num) h1)),
      if_neg (not_le.mpr h1)]
  · rcases le_or_lt (P / A) 0.6 with h | h
    · exact Or.inl h
    rcases le_or_lt (P / A) 1 with h2 | h2
    · exact Or.inr (Or.inl ⟨h, h2⟩)
    rcases le_or_lt (P / A) 1.4 with h3 | h3
    · exact Or.inr (Or.inr (Or.inl ⟨h2, h3⟩))
    · exact Or.inr (Or.inr (Or.inr h3))
  · rintro ⟨h1, h2⟩; exact absurd h1 (not_le.mpr h2)
  · rintro ⟨h1, h2⟩; exact absurd h1 (not_le.mpr h2)
  · rintro ⟨h1, h2⟩; exact absurd h1 (not_le.mpr h2)

/-- Witness for C1: the three boundary ratios `0.6`, `1`, `1.4` classify
into the lower band, and a ratio above `1.4` into the last band. -/
theorem resale_bands_spec_witness :
    resale_estimate_and_label 3 5 =
      ("🔥 Revente rapide", 90, (round2 ((5:ℚ) * 0.9), round2 ((5:ℚ) * 1.1)), "1-7 jours") ∧
    resale_estimate_and_label 5 5 =
      ("✅ Bonne revente", 75, (round2 ((5:ℚ) * 0.95), round2 ((5:ℚ) * 1.25)), "7-21 jours") ∧
    resale_estimate_and_label 7 5 =
      ("🕐 Vente lente", 50, (round2 ((5:ℚ) * 0.9), round2 ((5:ℚ) * 1.3)), "2-6 semaines") ∧
    resale_estimate_and_label 8 5 =
      ("🐢 Vente très lente", 25, (round2 ((5:ℚ) * 0.8), round2 ((5:ℚ) * 1.1)), "1-3 mois") :=
  ⟨(resale_bands_spec 3 5 (by norm_num)).1 (by norm_num),
   (resale_bands_spec 5 5 (by norm_num)).2.1 (by norm_num) (by norm_num),
   (resale_bands_spec 7 5 (by norm_num)).2.2.1 (by norm_num) (by norm_num),
   (resale_bands_spec 8 5 (by norm_num)).2.2.2.1 (by norm_num)⟩

/-- **C2 (amended).** Every listing returned by `search_vinted` has a
non-negative price: the cleaned price text consists of digits and points
only, so a successful parse is necessarily `≥ 0`, and a listing whose
price text fails to parse is dropped.  (The claim's stronger `price > 0`
is refuted by `search_vinted_pos_price_counterexample`: a price text
parsing to exactly `0` is kept.) -/
theorem search_vinted_price_nonneg_spec (fetch : ℤ → Option Page)
    (maxPages : ℤ) (l : Listing) (h : l ∈ search_vinted fetch maxPages) :
    0 ≤ l.price :=
  search_vinted_price_nonneg h

/-- Witness for C2 (amended): the zero-priced listing served by
`zeroFetch` is in the result, with non-negative price. -/
theorem search_vinted_price_nonneg_spec_witness :
    0 ≤ (Listing.mk "Article gratuit".toList 0
          "https://www.vinted.fr/items/1".toList).price :=
  search_vinted_price_nonneg_spec zeroFetch 1
    (Listing.mk "Article gratuit".toList 0 "https://www.vinted.fr/items/1".toList)
    (by with_unfolding_all decide)

/-- Counterexample to C2 as stated: a listing whose price text `"0 €"`
parses to `0` is *not* skipped — `search_vinted` returns it, so not every
returned listing has `price > 0`. -/
theorem search_vinted_pos_price_counterexample :
    (search_vinted zeroFetch 1).map Listing.price = [0] ∧
    ¬ (∀ l ∈ search_vinted zeroFetch 1, 0 < l.price) := by
  with_unfolding_all decide

/-- **C5.** A per-page fetch failure is non-fatal: the result of
`search_vinted` is the concatenation, in page order, of the listings of
each successfully fetched page (a failed page contributing `[]`), and in
particular a 3-page run whose page 2 fails returns exactly the listings
of pages 1 and 3. -/
theorem search_vinted_page_concat_spec :
    (∀ (fetch : ℤ → Option Page) (maxPages : ℤ),
      search_vinted fetch maxPages =
        ((pagesRange maxPages).map (fun page =>
          match fetch page with
          | none => []
          | some pg => extractPage pg)).flatten) ∧
    (∀ p1 p3 : Page,
      search_vinted
        (fun page => if page = 1 then some p1 else if page = 3 then some p3 else none)
        3 =
      extractPage p1 ++ extractPage p3) := by
  refine ⟨search_vinted_eq_flatten, ?_⟩
  intro p1 p3
  rw [search_vinted_eq_flatten]
  have hr : pagesRange 3 = [1, 2, 3] := by decide
  rw [hr]
  norm_num

/-- **C6.** For every price `P` and reference average `A ≤ 0`,
`resale_estimate_and_label` returns the fixed "unknown" result — a
defined classification, not an error. -/
theorem resale_unknown_spec (P A : ℚ) (h : A ≤ 0) :
    resale_estimate_and_label P A = ("Inconnu", 0, (0, 0), "Inconnu") := by
  simp only [resale_estimate_and_label]
  rw [if_pos h]

/-- Witness for C6 at `P = 7`, `A = 0`. -/
theorem resale_unknown_spec_witness :
    resale_estimate_and_label 7 0 = ("Inconnu", 0, (0, 0), "Inconnu") :=
  resale_unknown_spec 7 0 (by norm_num)

/-- **C7.** `market_saturation_label` maps every count into exactly one of
three bands — `count < 10` low, `10 ≤ count < 30` medium, `count ≥ 30`
high — with the boundary values 9, 10, 29, 30 as the claim lists them. -/
theorem market_saturation_spec :
    (∀ count : ℕ,
      (count < 10 ∧ market_saturation_label count = "Peu saturé") ∨
      (10 ≤ count ∧ count < 30 ∧ market_saturation_label count = "Moyennement saturé") ∨
      (30 ≤ count ∧ market_saturation_label count = "Très saturé")) ∧
    market_saturation_label 9 = "Peu saturé" ∧
    market_saturation_label 10 = "Moyennement saturé" ∧
    market_saturation_label 29 = "Moyennement saturé" ∧
    market_saturation_label 30 = "Très saturé" := by
  refine ⟨?_, rfl, rfl, rfl, rfl⟩
  intro count
  by_cases h1 : count < 10
  · exact Or.inl ⟨h1, by simp [market_saturation_label, h1]⟩
  by_cases h2 : count < 30
  · exact Or.inr (Or.inl ⟨Nat.le_of_not_lt h1, h2,
      by simp [market_saturation_label, h1, h2]⟩)
  · exact Or.inr (Or.inr ⟨Nat.le_of_not_lt h2,
      by simp [market_saturation_label, h1, h2]⟩)

/-- **C9.** For every price `P` and every average `A` (including `A ≤ 0`),
the estimated range of `resale_estimate_and_label` satisfies `low ≤ high`:
the unknown result returns `(0, 0)`, and in each band the lower multiplier
is smaller and rounding to two decimals is monotone. -/
theorem resale_range_ordered_spec (P A : ℚ) :
    (resale_estimate_and_label P A).2.2.1.1 ≤
      (resale_estimate_and_label P A).2.2.1.2 := by
  by_cases hA : A ≤ 0
  · simp only [resale_estimate_and_label]
    rw [if_pos hA]
  · rw [not_le] at hA
    simp only [resale_estimate_and_label]
    rw [if_neg (not_le.mpr hA)]
    split_ifs <;> dsimp only <;> exact round2_mono (by nlinarith)

/-- **C10.** Calling `search_vinted` with `max_pages < 1` visits no page at
all (`range(1, max_pages+1)` is empty) and returns the empty list. -/
theorem search_vinted_no_pages_spec (fetch : ℤ → Option Page)
    (maxPages : ℤ) (h : maxPages < 1) :
    pagesRange maxPages = [] ∧ search_vinted fetch maxPages = [] := by
  have h1 : pagesRange maxPages = [] := by
    unfold pagesRange
    rw [max_eq_left (by linarith : maxPages ≤ 0)]
    rfl
  refine ⟨h1, ?_⟩
  unfold search_vinted
  rw [h1]
  rfl

/-- Witness for C10 at `max_pages = 0`. -/
theorem search_vinted_no_pages_spec_witness :
    pagesRange 0 = [] ∧ search_vinted (fun _ => none) 0 = [] :=
  search_vinted_no_pages_spec (fun _ => none) 0 (by norm_num)

/-- **C4.** `analyze_prices` keeps exactly the numeric prices; it returns
the `None` sentinel precisely when no numeric price remains (no division
by zero, no exception), and otherwise the arithmetic mean, minimum,
maximum and count of exactly those prices. -/
theorem analyze_prices_spec (items : List PriceRecord) :
    (analyze_prices items = none ↔ items.filterMap PriceRecord.price = []) ∧
    (∀ s, analyze_prices items = some s →
      s.count = (items.filterMap PriceRecord.price).length ∧
      s.avg = (items.filterMap PriceRecord.price).sum /
        ((items.filterMap PriceRecord.price).length : ℚ) ∧
      s.min ∈ items.filterMap PriceRecord.price ∧
      s.max ∈ items.filterMap PriceRecord.price ∧
      ∀ x ∈ items.filterMap PriceRecord.price, s.min ≤ x ∧ x ≤ s.max) := by
  cases hp : items.filterMap PriceRecord.price with
  | nil =>
    have ha : analyze_prices items = none := by
      simp only [analyze_prices, hp]
    constructor
    · rw [ha]
      simp
    · intro s hs
      rw [ha] at hs
      exact Option.noConfusion hs
  | cons p ps =>
    have ha : analyze_prices items =
        some { avg := (p :: ps).sum / ((p :: ps).length : ℚ)
               min := ps.foldl Min.min p
               max := ps.foldl Max.max p
               count := (p :: ps).length } := by
      simp only [analyze_prices, hp]
    constructor
    · rw [ha]
      simp
    · intro s hs
      rw [ha] at hs
      injection hs with hs
      rw [← hs]
      exact ⟨rfl, rfl, foldl_min_mem p ps, foldl_max_mem p ps,
        fun x hx => ⟨foldl_min_le p ps x hx, foldl_max_ge p ps x hx⟩⟩

/-- Witness for C4 on `[{price: none}, {price: 4}, {price: 2}]`: the
statistics are `avg = 3`, `min = 2`, `max = 4`, `count = 2`. -/
theorem analyze_prices_spec_witness :
    (⟨3, 2, 4, 2⟩ : Stats).count = (c4Items.filterMap PriceRecord.price).length ∧
    (⟨3, 2, 4, 2⟩ : Stats).avg = (c4Items.filterMap PriceRecord.price).sum /
      ((c4Items.filterMap PriceRecord.price).length : ℚ) ∧
    (⟨3, 2, 4, 2⟩ : Stats).min ∈ c4Items.filterMap PriceRecord.price ∧
    (⟨3, 2, 4, 2⟩ : Stats).max ∈ c4Items.filterMap PriceRecord.price ∧
    ∀ x ∈ c4Items.filterMap PriceRecord.price,
      (⟨3, 2, 4, 2⟩ : Stats).min ≤ x ∧ x ≤ (⟨3, 2, 4, 2⟩ : Stats).max :=
  (analyze_prices_spec c4Items).2 ⟨3, 2, 4, 2⟩ (by with_unfolding_all decide)

/-- Counterexample to C8 as stated: in the single-page scenario with
prices `[10, 20, 30]` and price filter `[0, 25]`, the filtered set is
`[10, 20]` and the reference average is their mean `15` — but the listing
priced 10 does **not** receive the fast-resale label: `10 / 15 = 2/3 >
0.6`, so it is classified one band up. -/
theorem analyse_run_fast_label_counterexample :
    ((analyse_vinted_run scenarioFetch 1 brandAll 0 25).1.map Listing.price
      = [10, 20]) ∧
    ((analyse_vinted_run scenarioFetch 1 brandAll 0 25).2
      = some ⟨15, 10, 20, 2⟩) ∧
    (resale_estimate_and_label 10 15).1 ≠ "🔥 Revente rapide" := by
  with_unfolding_all decide

/-- **C8 (amended).** The handler filters (brand, then price range) before
computing statistics, so the reference average is the mean of the filtered
set.  In the scenario — one page priced `[10, 20, 30]`, price filter
`[0, 25]` — exactly the listings priced 10 and 20 remain, the average is
their mean 15, and the listing priced 10 receives the **good**-resale
label (its ratio `2/3` exceeds the `0.6` fast threshold). -/
theorem analyse_run_filter_then_aggregate_spec :
    (∀ (fetch : ℤ → Option Page) (maxPages : ℤ) (brand : Str) (pmin pmax : ℚ),
      (analyse_vinted_run fetch maxPages brand pmin pmax).2 =
        analyze_prices
          ((filter_listings brand pmin pmax (search_vinted fetch maxPages)).map
            (fun it => ⟨some it.price⟩))) ∧
    ((analyse_vinted_run scenarioFetch 1 brandAll 0 25).1.map Listing.price
      = [10, 20]) ∧
    ((analyse_vinted_run scenarioFetch 1 brandAll 0 25).2
      = some ⟨15, 10, 20, 2⟩) ∧
    ((annotate (analyse_vinted_run scenarioFetch 1 brandAll 0 25).1 15).map
        (fun r => (r.1.price, r.2.1))
      = [(10, "✅ Bonne revente"), (20, "🕐 Vente lente")]) := by
  refine ⟨fun fetch maxPages brand pmin pmax => rfl, ?_, ?_, ?_⟩ <;>
    with_unfolding_all decide

/-- **C3.** For every price text built from digit strings `a`, `b` as
`"a,b €"` (comma decimal separator plus currency symbol), the extractor's
normalization yields exactly the value obtained by parsing the
point-separated plain numeral `"a.b"` — namely `a + b / 10^|b|` — and a
cleaned text with several separators (`"1,2,3 €"`) fails the best-effort
parse, so the listing is dropped (no exception: `extractNode` returns
`none`). -/
theorem price_normalization_spec (a b : Str) (ha : a ≠ [])
    (hda : ∀ c ∈ a, c.isDigit = true) (hdb : ∀ c ∈ b, c.isDigit = true) :
    parsePriceText (a ++ ',' :: b ++ [' ', '€']) = parseCleaned (a ++ '.' :: b) ∧
    parseCleaned (a ++ '.' :: b) =
      some ((digitsVal a : ℚ) + (digitsVal b : ℚ) / 10 ^ b.length) ∧
    parsePriceText "1,2,3 €".toList = none ∧
    extractNode (mkNode "Pull" "1,2,3 €" "/items/9") = none := by
  have hAeuro : ∀ c ∈ a, (fun c => decide (c ≠ '€')) c = true := fun c hc =>
    decide_eq_true (ne_of_isDigit_of_not (hda c hc) (by decide))
  have hBeuro : ∀ c ∈ b, (fun c => decide (c ≠ '€')) c = true := fun c hc =>
    decide_eq_true (ne_of_isDigit_of_not (hdb c hc) (by decide))
  have hAmap : ∀ c ∈ a, (fun c => if c = ',' then '.' else c) c = id c := fun c hc =>
    if_neg (ne_of_isDigit_of_not (hda c hc) (by decide))
  have hBmap : ∀ c ∈ b, (fun c => if c = ',' then '.' else c) c = id c := fun c hc =>
    if_neg (ne_of_isDigit_of_not (hdb c hc) (by decide))
  have hABws : ∀ c ∈ a ++ '.' :: b, c.isWhitespace = false := by
    intro c hc
    rcases List.mem_append.mp hc with h | h
    · exact isWhitespace_eq_false_of_isDigit (hda c h)
    · rcases List.mem_cons.mp h with rfl | h2
      · decide
      · exact isWhitespace_eq_false_of_isDigit (hdb c h2)
  have hABdigit : ∀ c ∈ a ++ '.' :: b,
      (fun c => c.isDigit || decide (c = '.')) c = true := by
    intro c hc
    rcases List.mem_append.mp hc with h | h
    · simp [hda c h]
    · rcases List.mem_cons.mp h with rfl | h2
      · decide
      · simp [hdb c h2]
  have hAdot : ∀ c ∈ a, (fun c => decide (c ≠ '.')) c = true := fun c hc =>
    decide_eq_true (ne_of_isDigit_of_not (hda c hc) (by decide))
  have hdotA : ('.' : Char) ∉ a := fun hm => absurd (hda '.' hm) (by decide)
  have hdotB : ('.' : Char) ∉ b := fun hm => absurd (hdb '.' hm) (by decide)
  have hne : a ++ '.' :: b ≠ [] := by
    cases a with
    | nil => exact absurd rfl ha
    | cons x xs => exact List.cons_ne_nil x (xs ++ '.' :: b)
  have s1 : List.filter (fun c => decide (c ≠ '€')) (a ++ ',' :: b ++ [' ', '€'])
      = a ++ ',' :: b ++ [' '] := by
    rw [List.filter_append, List.filter_append,
      List.filter_eq_self.mpr hAeuro, List.filter_cons,
      List.filter_eq_self.mpr hBeuro]
    simp +decide
  have s2 : List.map (fun c => if c = ',' then '.' else c) (a ++ ',' :: b ++ [' '])
      = a ++ '.' :: b ++ [' '] := by
    rw [List.map_append, List.map_append,
      List.map_congr_left hAmap, List.map_id, List.map_cons,
      List.map_congr_left hBmap, List.map_id]
    simp +decide
  have s3 : trimList (a ++ '.' :: b ++ [' ']) = a ++ '.' :: b := by
    rw [show a ++ '.' :: b ++ [' '] = (a ++ '.' :: b) ++ [' '] from rfl]
    exact trimList_append_space hne hABws
  have s4 : List.filter (fun c => c.isDigit || decide (c = '.')) (a ++ '.' :: b)
      = a ++ '.' :: b := List.filter_eq_self.mpr hABdigit
  have hcount : (a ++ '.' :: b).count '.' = 1 := by
    rw [List.count_append, List.count_eq_zero.mpr hdotA, List.count_cons,
      List.count_eq_zero.mpr hdotB]
    rfl
  have s6 : parseCleaned (a ++ '.' :: b) =
      some ((digitsVal a : ℚ) + (digitsVal b : ℚ) / 10 ^ b.length) := by
    simp only [parseCleaned, hcount]
    rw [if_neg (by norm_num), if_pos trivial]
    rw [takeWhile_append_stop b hAdot (by decide),
      dropWhile_append_stop b hAdot (by decide)]
    rw [List.tail_cons]
    rw [if_neg (fun hcontra => ha hcontra.1)]
  refine ⟨?_, s6, by with_unfolding_all decide, by with_unfolding_all decide⟩
  simp only [parsePriceText]
  rw [s1, s2, s3, s4, if_neg hne, s6]


/-- Witness for C3 at `"24,50 €"`, which parses to `24.5` like `"24.50"`. -/
theorem price_normalization_spec_witness :
    parsePriceText (['2','4'] ++ ',' :: ['5','0'] ++ [' ', '€'])
      = parseCleaned (['2','4'] ++ '.' :: ['5','0']) ∧
    parseCleaned (['2','4'] ++ '.' :: ['5','0'])
      = some ((digitsVal ['2','4'] : ℚ)
          + (digitsVal ['5','0'] : ℚ) / 10 ^ (['5','0'] : Str).length) ∧
    parsePriceText "1,2,3 €".toList = none ∧
    extractNode (mkNode "Pull" "1,2,3 €" "/items/9") = none :=
  price_normalization_spec ['2','4'] ['5','0'] (by decide) (by decide) (by decide)

end Scout
